import Mathlib

/-!
# Verification of the os6 kernel and easy-fs (LearningOS lab4-os6)

Shallow embedding of the parts of the kernel that the specification's
claims are about, together with proofs and refutations of those claims.

Machine integers (`usize`/`u32`) are modelled as `Nat`; wrapping
arithmetic is written with an explicit `% 2 ^ 64` where the Rust code can
wrap.  Fallible or panicking kernel paths are modelled with `Option`
(`none` = panic).  Rust `Vec`/`VecDeque` become `List`; `Vec::pop` /
`Vec::push` act on the head of the Lean list (the Lean head is the Rust
back), which preserves the LIFO stack discipline of the source.
-/

namespace OsModel

/-! ## Constants (config.rs contract, spec section 6) -/

def PAGE_SIZE : Nat := 4096

def BIG_STRIDE : Nat := 1 <<< 20

/-- The modulus of `usize` arithmetic on the 64-bit target. -/
def USIZE_MOD : Nat := 2 ^ 64

/-- Rust `as usize` on an `i64`/`isize` value: two's-complement wrap. -/
def usizeOfInt (i : Int) : Nat := (i % (USIZE_MOD : Int)).toNat

/-- Rust `Vec::swap_remove(idx)` / `VecDeque::swap_remove_back(idx)`:
the element at `idx` is replaced by the back element and the back is
popped.  Only the remaining collection is returned here; callers that
need the removed element read it off separately. -/
def vec_swap_remove {α : Type} (l : List α) (idx : Nat) : List α :=
  match l.getLast? with
  | none => l
  | some last => (l.set idx last).dropLast

/-! ## easy-fs VFS layer (src/easy-fs/src/vfs.rs)

Only `vfs.rs` of easy-fs is in the sources; the `DiskInode` byte-level
IO and the `EasyFileSystem` allocator it calls live in the missing
`layout.rs`/`efs.rs` and are modelled from the spec at directory-entry
granularity (spec section 3: directory entries are 32 bytes, `DIRENT_SZ = 32`;
section 4.E/4.F: `clear_size` frees all data blocks, `dealloc_inode`
frees the inode). -/

namespace Vfs

def DIRENT_SZ : Nat := 32

structure DirEntry where
  name : String
  inode_number : Nat
deriving DecidableEq

/-- Modelled from the spec: the root directory's `DiskInode`.  `size` is
the byte size as stored on disk; the entry stored at byte offset
`32 * i` is `data i`.  (`DiskInode::read_at`/`write_at` of the missing
`layout.rs` are only ever used on whole 32-byte entries here.) -/
structure DirInode where
  size : Nat
  data : Nat → DirEntry

/-- Modelled from the spec: `DiskInode::read_at` at a whole-entry offset. -/
def DirInode.read_entry (d : DirInode) (offset : Nat) : DirEntry :=
  d.data (offset / DIRENT_SZ)

/-- Modelled from the spec: `DiskInode::write_at` at a whole-entry offset
inside the current size (no growth happens in `swap_remove`). -/
def DirInode.write_entry (d : DirInode) (offset : Nat) (e : DirEntry) : DirInode :=
  { d with data := fun j => if j = offset / DIRENT_SZ then e else d.data j }

/-- Modelled from the spec: the filesystem state `unlink` touches — the
root directory, the per-inode link counts (`DiskInode.link_num`), and
the set of inodes whose data blocks and inode slot have been freed
(`clear_size` + `dealloc_data` + `dealloc_inode`). -/
structure FsState where
  dir : DirInode
  link_num : Nat → Nat
  freed_inodes : List Nat

/-- `Inode::find_entry_id`: index of the first directory entry named
`name`, scanning the `size / DIRENT_SZ` entries in order. -/
def find_entry_id (d : DirInode) (name : String) : Option Nat :=
  (List.range (d.size / DIRENT_SZ)).find? (fun i => (d.data i).name == name)

/-- `Inode::swap_remove`: read the last entry, write it over the removed
slot, shrink the directory by one entry; returns the new directory and
the inode number carried by the entry that was read from the last slot
(this is what the source returns — see the C1 analysis). -/
def swap_remove (d : DirInode) (entry_id : Nat) : DirInode × Nat :=
  let offset := entry_id * DIRENT_SZ
  let last_offset := d.size - DIRENT_SZ
  let dir_entry := d.read_entry last_offset
  let d1 := d.write_entry offset dir_entry
  ({ d1 with size := d.size - DIRENT_SZ }, dir_entry.inode_number)

/-- `Inode::unlink`: find the entry index for `path`; if present,
swap-remove it, decrement the link count of the inode id returned by
`swap_remove`, and if that count reaches zero free the inode's data
blocks and the inode itself; returns `false` and changes nothing when
`path` names no entry. -/
def unlink (fs : FsState) (path : String) : Bool × FsState :=
  match find_entry_id fs.dir path with
  | none => (false, fs)
  | some id =>
    let r := swap_remove fs.dir id
    let inode_id := r.2
    let n := fs.link_num inode_id - 1
    let link1 := fun i => if i = inode_id then n else fs.link_num i
    if n = 0 then
      (true, { dir := r.1, link_num := link1, freed_inodes := inode_id :: fs.freed_inodes })
    else
      (true, { dir := r.1, link_num := link1, freed_inodes := fs.freed_inodes })

end Vfs

/-! ## Stride scheduler (src/os6/src/task/tcb.rs, src/os6/src/task/manager.rs) -/

namespace Sched

/-- `Pass::partial_cmp` (and through `unwrap`, `Pass::cmp`), on the raw
`usize` pass values. -/
def pass_cmp (a b : Nat) : Ordering :=
  if a ≤ b then
    if b - a > BIG_STRIDE / 2 then .gt else .lt
  else
    if a - b > BIG_STRIDE / 2 then .lt else .gt

/-- The scheduling-relevant slice of a `TaskControlBlock` on the ready
queue. -/
structure TaskEntry where
  id : Nat
  pass : Nat
  priority : Nat
deriving DecidableEq

/-- One step of `Iterator::min_by_key`'s left fold (`cmp::min_by`): the
accumulator is replaced only when it compares `Greater` to the new
element, so the first minimum wins. -/
def min_step (acc cur : Nat × TaskEntry) : Nat × TaskEntry :=
  if pass_cmp acc.2.pass cur.2.pass = .gt then cur else acc

/-- `ready_queue.iter().enumerate().min_by_key(|(_, task)| task.pass)`. -/
def select_min (q : List TaskEntry) : Option (Nat × TaskEntry) :=
  match q.enum with
  | [] => none
  | p :: rest => some (rest.foldl min_step p)

/-- `TaskManager::fetch_task`: pick the `min_by_key` task, remove it with
`swap_remove_back`, and bump its pass by `BIG_STRIDE / priority`
(wrapping `usize` addition). -/
def fetch_task (q : List TaskEntry) : Option (TaskEntry × List TaskEntry) :=
  match select_min q with
  | none => none
  | some (index, t) =>
    some ({ t with pass := (t.pass + BIG_STRIDE / t.priority) % USIZE_MOD },
          vec_swap_remove q index)

/-- The ordering the spec claims: `a < b` iff `(b - a) mod 2^64 ≤ BIG_STRIDE / 2`. -/
def claim_mod_lt (a b : Nat) : Prop :=
  (USIZE_MOD + b - a) % USIZE_MOD ≤ BIG_STRIDE / 2

instance (a b : Nat) : Decidable (claim_mod_lt a b) := by
  unfold claim_mod_lt; infer_instance

end Sched

/-! ## Task control blocks and fork (src/os6/src/task/tcb.rs, src/os6/src/syscall/process.rs) -/

namespace Task

/-- A file handle sitting in an fd table.  Handles are compared by the
identity of the shared object they reference (`Arc` identity): two
entries hold the same handle iff they are clones of the same `Arc`. -/
inductive FileHandle where
  | stdin : FileHandle
  | stdout : FileHandle
  | osInode (id : Nat) : FileHandle
deriving DecidableEq

/-- The registers of `TrapContext` that the embedded code reads or
writes (`x[10..13]`, `x[17]`, `sepc`, `kernel_sp`); the remaining
registers ride along unchanged and are omitted. -/
structure TrapCtx where
  x10 : Nat
  x11 : Nat
  x12 : Nat
  x13 : Nat
  x17 : Nat
  sepc : Nat
  kernel_sp : Nat
deriving DecidableEq

/-- The slice of `TaskControlBlock`(`Inner`) that `fork` constructs. -/
structure TCB where
  pid : Nat
  fd_table : List (Option FileHandle)
  trap_ctx : TrapCtx
  priority : Nat
  pass : Nat
deriving DecidableEq

/-- `TaskControlBlock::fork`: the child's memory set is a byte copy of
the parent's (`from_existed_user`), so the child's trap context starts
as the parent's; `fork` then sets its `kernel_sp` to the new kernel
stack top.  The fd table is built fresh as `[Stdin, Stdout, Stdout]`,
priority is 16 and pass is 0. -/
def fork (parent : TCB) (new_pid kernel_stack_top : Nat) : TCB :=
  { pid := new_pid
    fd_table := [some .stdin, some .stdout, some .stdout]
    trap_ctx := { parent.trap_ctx with kernel_sp := kernel_stack_top }
    priority := 16
    pass := 0 }

/-- `sys_fork`: fork, zero the child's `x10`, hand the child's pid back
to the parent.  Returns (child task, parent's return value). -/
def sys_fork (parent : TCB) (new_pid kernel_stack_top : Nat) : TCB × Int :=
  let new_task := fork parent new_pid kernel_stack_top
  let new_task := { new_task with trap_ctx := { new_task.trap_ctx with x10 := 0 } }
  (new_task, (new_pid : Int))

end Task

/-! ## Frame allocator (src/os6/src/mm/frame_allocator.rs) -/

namespace FrameAlloc

/-- `StackFrameAllocator` (field `end` is `endp`, `end` being reserved).
`recycled` is the stack of recycled page numbers; the Lean list head is
the Rust `Vec` back, i.e. the stack top. -/
structure StackFrameAllocator where
  current : Nat
  endp : Nat
  recycled : List Nat
deriving DecidableEq

/-- `StackFrameAllocator::init` after the `l < r` assertion. -/
def init (l r : Nat) : StackFrameAllocator :=
  { current := l, endp := r, recycled := [] }

/-- `StackFrameAllocator::alloc`: `recycled.pop().or_else(...)`. -/
def alloc (s : StackFrameAllocator) : Option Nat × StackFrameAllocator :=
  match s.recycled with
  | p :: rest => (some p, { s with recycled := rest })
  | [] =>
    if s.current = s.endp then (none, s)
    else (some s.current, { s with current := s.current + 1 })

/-- `StackFrameAllocator::dealloc`; `none` models the
`"Frame ppn={} has not been allocated!"` panic. -/
def dealloc (s : StackFrameAllocator) (ppn : Nat) : Option StackFrameAllocator :=
  if s.current ≤ ppn ∨ ppn ∈ s.recycled then none
  else some { s with recycled := ppn :: s.recycled }

inductive FrameOp where
  | alloc : FrameOp
  | dealloc (ppn : Nat) : FrameOp

/-- One allocator call together with the ghost list `live` of frames
handed out by `alloc` and not yet returned through `dealloc`. -/
def step (st : StackFrameAllocator × List Nat) (op : FrameOp) :
    Option (StackFrameAllocator × List Nat) :=
  match op with
  | .alloc =>
    match alloc st.1 with
    | (some p, s1) => some (s1, p :: st.2)
    | (none, s1) => some (s1, st.2)
  | .dealloc p =>
    match dealloc st.1 p with
    | some s1 => some (s1, st.2.erase p)
    | none => none

/-- Run a sequence of allocator calls; `none` as soon as one panics. -/
def run (st : StackFrameAllocator × List Nat) : List FrameOp →
    Option (StackFrameAllocator × List Nat)
  | [] => some st
  | op :: ops =>
    match step st op with
    | some st1 => run st1 ops
    | none => none

/-- The allocator's inductive invariant. -/
def Inv (s : StackFrameAllocator) (live : List Nat) : Prop :=
  (∀ p ∈ live, p < s.current) ∧ (∀ p ∈ s.recycled, p < s.current) ∧
    s.recycled.Nodup ∧ (∀ p ∈ s.recycled, p ∉ live) ∧ live.Nodup

end FrameAlloc

/-! ## Trap dispatch (src/os6/src/trap/mod.rs) -/

namespace Trap

/-- The user-mode trap causes distinguished by `trap_handler`; every
`scause` value the `riscv` crate can decode is one of these. -/
inductive Cause where
  | userEnvCall
  | storeFault
  | storePageFault
  | loadPageFault
  | illegalInstruction
  | supervisorTimer
  | instructionMisaligned
  | instructionFault
  | breakpoint
  | loadFault
  | loadMisaligned
  | storeMisaligned
  | instructionPageFault
  | supervisorSoft
  | supervisorExternal
deriving DecidableEq

/-- What a single run of `trap_handler` does before `trap_return`. -/
inductive TrapOutcome where
  | toUser (ctx : Task.TrapCtx)
  | exitTask (code : Int)
  | timerSuspend
  | kernelPanic
deriving DecidableEq

/-- `trap_handler`.  `dispatch id args ctx` abstracts
`syscall(id, args)` together with the trap context current after the
syscall returns (the syscall may have replaced it, e.g. `exec`); the
handler re-reads it before writing the return value into `x10`. -/
def trap_handler (ctx : Task.TrapCtx)
    (dispatch : Nat → Nat × Nat × Nat × Nat → Task.TrapCtx → Int × Task.TrapCtx) :
    Cause → TrapOutcome
  | .userEnvCall =>
    let c1 : Task.TrapCtx := { ctx with sepc := ctx.sepc + 4 }
    let r := dispatch c1.x17 (c1.x10, c1.x11, c1.x12, c1.x13) c1
    .toUser { r.2 with x10 := usizeOfInt r.1 }
  | .storeFault => .exitTask (-2)
  | .storePageFault => .exitTask (-2)
  | .loadPageFault => .exitTask (-2)
  | .illegalInstruction => .exitTask (-3)
  | .supervisorTimer => .timerSuspend
  | _ => .kernelPanic

end Trap

/-! ## Page-table walk and user-pointer decoding (src/os6/src/mm/page_table.rs) -/

namespace Mm

structure PTE where
  bits : Nat
deriving DecidableEq

/-- `PageTableEntry::ppn`: bits [53:10]. -/
def PTE.ppn (p : PTE) : Nat := (p.bits >>> 10) &&& (2 ^ 44 - 1)

/-- `PageTableEntry::is_valid`: the `V` flag (bit 0). -/
def PTE.is_valid (p : PTE) : Bool := p.bits &&& 1 ≠ 0

/-- The physical memory holding page-table nodes: `read node_ppn index`
is the 64-bit entry at slot `index` of the node stored in page
`node_ppn` (`PhysPageNum::as_page_ptes_mut`). -/
structure PtMem where
  read : Nat → Nat → PTE

/-- Modelled from the spec: `VirtAddr::vpn`/`floor` of the missing
`address.rs` — the virtual page number is the address divided by the
page size. -/
def vpn_of_va (va : Nat) : Nat := va / PAGE_SIZE

/-- `PageTable::find_pte` over the three `VirtPageNum::indexes` (spec
section 3: three 9-bit indices).  The leaf entry is returned without a
validity check; `none` only when an interior entry is invalid. -/
def find_pte (m : PtMem) (root : Nat) (vpn : Nat) : Option PTE :=
  let pte0 := m.read root ((vpn >>> 18) &&& 511)
  if ¬ pte0.is_valid then none
  else
    let pte1 := m.read pte0.ppn ((vpn >>> 9) &&& 511)
    if ¬ pte1.is_valid then none
    else some (m.read pte1.ppn (vpn &&& 511))

/-- `PageTable::translate_va_as`: `find_pte(va.vpn()).unwrap()` then the
physical address at the page offset; the `unwrap` of a failed walk is
the kernel panic, modelled as `none`. -/
def translate_va_as (m : PtMem) (root : Nat) (va : Nat) : Option Nat :=
  (find_pte m root (vpn_of_va va)).map
    (fun pte => pte.ppn * PAGE_SIZE + va % PAGE_SIZE)

/-- `PageTable::translated_mut`: build a borrowed table from `satp`
(low 44 bits are the root PPN) and resolve the user pointer. -/
def translated_mut (m : PtMem) (satp : Nat) (va : Nat) : Option Nat :=
  translate_va_as m (satp &&& (2 ^ 44 - 1)) va

end Mm

/-! ## sys_waitpid (src/os6/src/syscall/process.rs) -/

namespace Sys

/-- The slice of a child `TaskControlBlock` that `sys_waitpid` reads. -/
structure Child where
  pid : Nat
  zombie : Bool
  exit_code : Int
deriving DecidableEq

/-- `pid == -1 || pid as usize == p.pid()`. -/
def matches_pid (pid : Int) (p : Child) : Bool :=
  pid == -1 || usizeOfInt pid == p.pid

/-- `children.iter().enumerate().find(|(_, p)| p.is_zombie() && (pid == -1 || pid as usize == p.pid()))`. -/
def find_zombie_idx (children : List Child) (pid : Int) : Option (Nat × Child) :=
  children.enum.find? (fun p => p.2.zombie && matches_pid pid p.2)

/-- `sys_waitpid`.  User memory is a map from resolved physical
addresses to `i32` slots; the exit-code pointer is resolved through
`translated_mut` with no null check, and a failed walk is the kernel
panic (`none`).  The source early-returns `-1` when no child matches,
`-2` when some child matches but none of the matching ones is a zombie,
and otherwise `Vec::swap_remove`s the first matching zombie and writes
its exit code through the pointer. -/
def sys_waitpid (children : List Child) (pid : Int) (m : Mm.PtMem) (satp : Nat)
    (exit_code_ptr : Nat) (mem : Nat → Int) :
    Option (Int × List Child × (Nat → Int)) :=
  if children.any (fun p => matches_pid pid p) then
    match find_zombie_idx children pid with
    | some (idx, child) =>
      match Mm.translated_mut m satp exit_code_ptr with
      | none => none
      | some pa =>
        some ((child.pid : Int), vec_swap_remove children idx,
              fun a => if a = pa then child.exit_code else mem a)
    | none => some (-2, children, mem)
  else
    some (-1, children, mem)

end Sys

/-! ## fstat (src/os6/src/syscall/fs.rs, src/os6/src/fs/mod.rs) -/

namespace Fs

/-- The `Stat` struct (`mode` is the raw `StatMode` bits). -/
structure Stat where
  dev : Nat
  ino : Nat
  mode : Nat
  nlink : Nat
  pad : List Nat
deriving DecidableEq

/-- An open file as `sys_fstat` sees it: an object whose `stat()` method
reports `st` (the `OSInode` implementation of `File::stat` lives in the
missing `fs/inode.rs`, so the reported value is abstract here). -/
structure FileM where
  st : Stat
deriving DecidableEq

/-- `sys_fstat`: the user's `Stat` is resolved first and `dev = 0` is
written into it before the fd is looked up; an invalid fd returns `-1`
leaving that partial write, a valid fd overwrites the whole struct with
the file's stat and returns 0.  Returns (return value, user `Stat`
memory after the call); pointer resolution is assumed to succeed (it is
performed identically on both paths). -/
def sys_fstat (fd_table : List (Option FileM)) (fd : Nat) (user_stat : Stat) :
    Int × Stat :=
  let st1 := { user_stat with dev := 0 }
  match fd_table.get? fd with
  | some (some f) => (0, f.st)
  | _ => (-1, st1)

end Fs

/-! ## mmap / munmap (src/os6/src/syscall/process.rs, src/os6/src/task/mod.rs,
src/os6/src/mm/memory_set.rs) -/

namespace Mset

inductive MapTypeM where
  | identical
  | framed
deriving DecidableEq

/-- `MapArea`: a VPN range `[vstart, vstop)`, a map type, and the
`MapPermission` bits (`R = 2, W = 4, X = 8, U = 16`). -/
structure MapAreaM where
  vstart : Nat
  vstop : Nat
  map_type : MapTypeM
  map_perm : Nat
deriving DecidableEq

/-- `MapArea::intersection`: `start.max(r.start)..end.min(r.end)`. -/
def intersection (a : MapAreaM) (r : Nat × Nat) : Nat × Nat :=
  (max a.vstart r.1, min a.vstop r.2)

/-- `Range::is_empty`. -/
def range_is_empty (r : Nat × Nat) : Bool := ! decide (r.1 < r.2)

/-- Modelled from the spec: `VirtAddr::floor` of the missing `address.rs`. -/
def floor_vpn (va : Nat) : Nat := va / PAGE_SIZE

/-- Modelled from the spec: `VirtAddr::ceil` of the missing `address.rs`. -/
def ceil_vpn (va : Nat) : Nat := (va + PAGE_SIZE - 1) / PAGE_SIZE

/-- An address space as `map_range`/`unmap_range` see it: its list of
areas (page-table effects are carried by the area list in this model —
every mapped user page belongs to exactly one area). -/
structure MemorySetM where
  areas : List MapAreaM
deriving DecidableEq

/-- `task::map_range`: reject when the page range intersects any
existing area, otherwise push a `Framed` area covering it
(`insert_framed_area`). -/
def map_range (ms : MemorySetM) (start len : Nat) (perm : Nat) :
    Bool × MemorySetM :=
  let r := (floor_vpn start, ceil_vpn (start + len))
  if ms.areas.any (fun a => ! range_is_empty (intersection a r)) then
    (false, ms)
  else
    (true, { areas := ms.areas ++ [⟨r.1, r.2, .framed, perm⟩] })

/-- Whether `unmap_range` frees this area:
`area.intersection(&vpn_range) == area.vpn_range`. -/
def covered (r : Nat × Nat) (a : MapAreaM) : Bool :=
  intersection a r == (a.vstart, a.vstop)

/-- `task::unmap_range`: `retain_mut` drops (and unmaps) every area
wholly contained in the page range, summing their page counts; the call
succeeds iff the sum equals the size of the range. -/
def unmap_range (ms : MemorySetM) (start len : Nat) : Bool × MemorySetM :=
  let r := (floor_vpn start, ceil_vpn (start + len))
  let removed := ms.areas.filter (fun a => covered r a)
  let kept := ms.areas.filter (fun a => ! covered r a)
  let unmaped_count := (removed.map (fun a => a.vstop - a.vstart)).sum
  (unmaped_count == r.2 - r.1, { areas := kept })

/-- `MapPermission::from_bits_truncate((port as u8) << 1)`: the cast to
`u8`, the `u8` shift, and the truncation to the known `R|W|X|U` bits. -/
def perm_of_port (port : Nat) : Nat :=
  ((((port % 256) <<< 1) % 256) &&& 0b11110) ||| 16

/-- `sys_mmap`. -/
def sys_mmap (ms : MemorySetM) (start len port : Nat) : Int × MemorySetM :=
  if len = 0 then (0, ms)
  else if start % PAGE_SIZE ≠ 0 ∨ port &&& (USIZE_MOD - 8) ≠ 0 ∨ port &&& 7 = 0 then
    (-1, ms)
  else
    let r := map_range ms start len (perm_of_port port)
    if r.1 then (0, r.2) else (-1, r.2)

/-- `sys_munmap`. -/
def sys_munmap (ms : MemorySetM) (start len : Nat) : Int × MemorySetM :=
  if start % PAGE_SIZE ≠ 0 then (-1, ms)
  else
    let r := unmap_range ms start len
    if r.1 then (0, r.2) else (-1, r.2)

end Mset

/-! ## Theorems -/

theorem list_set_perm {α : Type} :
    ∀ (l : List α) (i : Nat) (v : α), i < l.length →
      (l.set i v).Perm (v :: l.eraseIdx i) := by
  intro l
  induction l with
  | nil => intro i v h; simp at h
  | cons a t ih =>
    intro i v h
    cases i with
    | zero => exact List.Perm.refl _
    | succ n =>
      have h2 : n < t.length := by simpa using Nat.lt_of_succ_lt_succ h
      exact ((ih n v h2).cons a).trans (List.Perm.swap v a _)

/-- `Vec::swap_remove(idx)` removes exactly the element at `idx`: the
remaining list is a permutation of the list with index `idx` erased. -/
theorem vec_swap_remove_perm {α : Type} (l : List α) (idx : Nat)
    (h : idx < l.length) :
    (vec_swap_remove l idx).Perm (l.eraseIdx idx) := by
  have hne : l ≠ [] := by intro e; subst e; simp at h
  obtain ⟨b, hb⟩ : ∃ b, l.getLast? = some b :=
    ⟨_, List.getLast?_eq_getLast_of_ne_nil hne⟩
  have hl : l.dropLast ++ [b] = l := List.dropLast_append_getLast? b hb
  unfold vec_swap_remove
  rw [hb]
  show ((l.set idx b).dropLast).Perm (l.eraseIdx idx)
  rcases Nat.lt_or_ge idx l.dropLast.length with hlt | hge
  · have hset : l.set idx b = l.dropLast.set idx b ++ [b] := by
      conv_lhs => rw [← hl]
      rw [List.set_append, if_pos hlt]
    have herase : l.eraseIdx idx = l.dropLast.eraseIdx idx ++ [b] := by
      conv_lhs => rw [← hl]
      rw [List.eraseIdx_append_of_lt_length hlt]
    rw [hset, List.dropLast_concat, herase]
    exact (list_set_perm _ idx _ hlt).trans
      (List.perm_append_singleton _ _).symm
  · have hlen : l.length = l.dropLast.length + 1 := by
      conv_lhs => rw [← hl]
      simp
    have hidx : idx = l.dropLast.length := by omega
    have hset : l.set idx b = l := by
      conv_lhs => rw [← hl]
      rw [List.set_append, if_neg (by omega)]
      have h0 : idx - l.dropLast.length = 0 := by omega
      rw [h0]
      exact hl
    have herase : l.eraseIdx idx = l.dropLast := by
      conv_lhs => rw [← hl]
      rw [List.eraseIdx_eq_take_drop_succ, hidx]
      simp
    rw [hset, herase, ← hl, List.dropLast_concat]

/-- C9: `sys_fstat` writes `dev = 0` into the user's `Stat` before the
fd lookup: when the fd is out of range or closed it returns −1 with
exactly that partial write left in user memory, and when the fd is an
open file it overwrites the whole `Stat` with the file's stat and
returns 0. -/
theorem sys_fstat_partial_write :
    ∀ (fd_table : List (Option Fs.FileM)) (fd : Nat) (user_stat : Fs.Stat),
      (∀ f, fd_table.get? fd = some (some f) →
          Fs.sys_fstat fd_table fd user_stat = (0, f.st))
      ∧ (fd_table.get? fd = none →
          Fs.sys_fstat fd_table fd user_stat = (-1, { user_stat with dev := 0 }))
      ∧ (fd_table.get? fd = some none →
          Fs.sys_fstat fd_table fd user_stat = (-1, { user_stat with dev := 0 })) := by
  intro t fd st
  refine ⟨fun f h => ?_, fun h => ?_, fun h => ?_⟩ <;>
    simp only [Fs.sys_fstat, h]

theorem sys_fstat_partial_write_w :
    Fs.sys_fstat [none] 0 ⟨7, 1, 2, 3, [9]⟩ = (-1, ⟨0, 1, 2, 3, [9]⟩)
    ∧ Fs.sys_fstat [some ⟨⟨0, 9, 8, 7, []⟩⟩] 0 ⟨7, 1, 2, 3, []⟩ = (0, ⟨0, 9, 8, 7, []⟩) :=
  ⟨(sys_fstat_partial_write [none] 0 ⟨7, 1, 2, 3, [9]⟩).2.2 rfl,
   (sys_fstat_partial_write [some ⟨⟨0, 9, 8, 7, []⟩⟩] 0 ⟨7, 1, 2, 3, []⟩).1
      ⟨⟨0, 9, 8, 7, []⟩⟩ rfl⟩

/-- C10: once `sys_waitpid` has found a matching zombie child, it
resolves `exit_code_ptr` through page-table translation for *every*
pointer value — there is no null check, so `ptr = 0` is translated like
any other address — and when the Sv39 walk of virtual address 0 hits an
invalid interior entry the call is a kernel panic (`none`). -/
theorem sys_waitpid_null_ptr_panic :
    ∀ (children : List Sys.Child) (pid : Int) (m : Mm.PtMem) (satp : Nat)
      (mem : Nat → Int) (idx : Nat) (child : Sys.Child),
      Sys.find_zombie_idx children pid = some (idx, child) →
      (∀ ptr : Nat,
          Sys.sys_waitpid children pid m satp ptr mem =
            match Mm.translated_mut m satp ptr with
            | none => none
            | some pa =>
              some ((child.pid : Int), vec_swap_remove children idx,
                    fun a => if a = pa then child.exit_code else mem a))
      ∧ (Mm.find_pte m (satp &&& (2 ^ 44 - 1)) 0 = none →
          Sys.sys_waitpid children pid m satp 0 mem = none) := by
  intro children pid m satp mem idx child hfind
  have hmatch : Sys.matches_pid pid child = true := by
    have hpred := List.find?_some hfind
    rw [Bool.and_eq_true] at hpred
    exact hpred.2
  have hmem : child ∈ children := by
    have hmem2 : (idx, child) ∈ children.enum := List.mem_of_find?_eq_some hfind
    exact List.get?_mem (List.mk_mem_enum_iff_get?.mp hmem2)
  have hany : children.any (fun p => Sys.matches_pid pid p) = true :=
    List.any_eq_true.mpr ⟨child, hmem, hmatch⟩
  constructor
  · intro ptr
    simp only [Sys.sys_waitpid, hany, if_true, hfind]
  · intro hwalk
    have h0 : Mm.translated_mut m satp 0 = none := by
      simp only [Mm.translated_mut, Mm.translate_va_as, Mm.vpn_of_va,
        Nat.zero_div, hwalk, Option.map_none']
    simp only [Sys.sys_waitpid, hany, if_true, hfind, h0]

/-- C4: `sys_waitpid(pid, exit_code_ptr)` returns −1 when no child
matches `pid` (−1 matches any child) and changes nothing; returns −2
when a child matches but no matching child is a zombie, changing
nothing; and otherwise removes exactly one matching zombie child (the
first, at index `idx`) from the children list, writes that child's exit
code through the resolved `exit_code_ptr`, and returns the child's pid —
after which, for a concrete `pid` and distinct child pids, a second wait
for the same child returns −1 because the child is gone from the list
(the dropped list entry was the last owning reference, so the TCB is
freed). -/
theorem sys_waitpid_cases :
    ∀ (children : List Sys.Child) (pid : Int) (m : Mm.PtMem) (satp ptr : Nat)
      (mem : Nat → Int),
      ((∀ c ∈ children, Sys.matches_pid pid c = false) →
          Sys.sys_waitpid children pid m satp ptr mem = some (-1, children, mem))
      ∧ ((∃ c ∈ children, Sys.matches_pid pid c = true) →
         (∀ c ∈ children, ¬(c.zombie = true ∧ Sys.matches_pid pid c = true)) →
          Sys.sys_waitpid children pid m satp ptr mem = some (-2, children, mem))
      ∧ (∀ (idx : Nat) (child : Sys.Child) (pa : Nat),
          Sys.find_zombie_idx children pid = some (idx, child) →
          Mm.translated_mut m satp ptr = some pa →
          Sys.sys_waitpid children pid m satp ptr mem =
              some ((child.pid : Int), vec_swap_remove children idx,
                    fun a => if a = pa then child.exit_code else mem a)
            ∧ children.get? idx = some child
            ∧ child.zombie = true ∧ Sys.matches_pid pid child = true
            ∧ (vec_swap_remove children idx).Perm (children.eraseIdx idx)
            ∧ (pid ≠ -1 → (children.map Sys.Child.pid).Nodup →
                Sys.sys_waitpid (vec_swap_remove children idx) pid m satp ptr mem
                  = some (-1, vec_swap_remove children idx, mem))) := by
  intro children pid m satp ptr mem
  refine ⟨fun hno => ?_, fun hex hnz => ?_, fun idx child pa hfind htr => ?_⟩
  · have hany : children.any (fun p => Sys.matches_pid pid p) = false :=
      List.any_eq_false.mpr (by simpa using hno)
    simp [Sys.sys_waitpid, hany]
  · have hany : children.any (fun p => Sys.matches_pid pid p) = true :=
      List.any_eq_true.mpr (by simpa using hex)
    have hfind : Sys.find_zombie_idx children pid = none := by
      apply List.find?_eq_none.mpr
      rintro ⟨i, c⟩ hmem2
      have hc : c ∈ children :=
        List.get?_mem (List.mk_mem_enum_iff_get?.mp hmem2)
      have := hnz c hc
      simp only [Bool.and_eq_true]
      tauto
    simp only [Sys.sys_waitpid, hany, if_true, hfind]
  · have hpred := List.find?_some hfind
    rw [Bool.and_eq_true] at hpred
    have hget : children.get? idx = some child :=
      List.mk_mem_enum_iff_get?.mp (List.mem_of_find?_eq_some hfind)
    have hmem : child ∈ children := List.get?_mem hget
    have hany : children.any (fun p => Sys.matches_pid pid p) = true :=
      List.any_eq_true.mpr ⟨child, hmem, hpred.2⟩
    have hlt : idx < children.length := by
      by_contra hge
      rw [List.get?_eq_none.mpr (Nat.le_of_not_lt hge)] at hget
      cases hget
    have hperm := vec_swap_remove_perm children idx hlt
    refine ⟨?_, hget, hpred.1, hpred.2, hperm, fun hpid hnodup => ?_⟩
    · simp only [Sys.sys_waitpid, hany, if_true, hfind, htr]
    · -- after the reap no remaining child can match `pid`
      have hup : usizeOfInt pid = child.pid := by
        have h2 := hpred.2
        simp only [Sys.matches_pid, Bool.or_eq_true, beq_iff_eq] at h2
        rcases h2 with h2 | h2
        · exact absurd h2 hpid
        · exact h2
      have hdrop : children.drop idx = child :: children.drop (idx + 1) := by
        have := List.drop_eq_getElem_cons hlt
        rw [this]
        congr 1
        have := hget
        rw [List.get?_eq_getElem?, List.getElem?_eq_some] at this
        obtain ⟨h3, h4⟩ := this
        exact h4
      have hdecomp : children = children.take idx ++ child :: children.drop (idx + 1) := by
        conv_lhs => rw [← List.take_append_drop idx children]
        rw [hdrop]
      have hnotin : child.pid ∉
          (children.take idx).map Sys.Child.pid
            ++ (children.drop (idx + 1)).map Sys.Child.pid := by
        rw [hdecomp, List.map_append, List.map_cons] at hnodup
        exact (List.nodup_middle.mp hnodup).not_mem
      have hmatch_false : ∀ c ∈ vec_swap_remove children idx,
          Sys.matches_pid pid c = false := by
        intro c hc
        have hc2 : c ∈ children.eraseIdx idx := (hperm.mem_iff).mp hc
        rw [List.eraseIdx_eq_take_drop_succ] at hc2
        have hcm : c.pid ∈
            (children.take idx).map Sys.Child.pid
              ++ (children.drop (idx + 1)).map Sys.Child.pid := by
          rcases List.mem_append.mp hc2 with h5 | h5
          · exact List.mem_append.mpr (Or.inl (List.mem_map_of_mem _ h5))
          · exact List.mem_append.mpr (Or.inr (List.mem_map_of_mem _ h5))
        have hne2 : c.pid ≠ child.pid := by
          intro he
          rw [he] at hcm
          exact hnotin hcm
        simp only [Sys.matches_pid, Bool.or_eq_false_iff, beq_eq_false_iff_ne]
        exact ⟨hpid, fun he => hne2 (hup ▸ he.symm)⟩
      have hany2 : (vec_swap_remove children idx).any
          (fun p => Sys.matches_pid pid p) = false :=
        List.any_eq_false.mpr (by simpa using hmatch_false)
      simp [Sys.sys_waitpid, hany2]

theorem sys_waitpid_cases_w :
    Sys.sys_waitpid [⟨5, true, 7⟩] 5
        ⟨fun p i =>
          if p = 0 ∧ i = 0 then ⟨(1 <<< 10) ||| 1⟩
          else if p = 1 ∧ i = 0 then ⟨(2 <<< 10) ||| 1⟩
          else if p = 2 ∧ i = 0 then ⟨(3 <<< 10) ||| 1⟩
          else ⟨0⟩⟩ 0 0 (fun _ => 0)
      = some (5, [], fun a => if a = 12288 then 7 else (fun _ => (0 : Int)) a)
    ∧ Sys.sys_waitpid [] 5
        ⟨fun p i =>
          if p = 0 ∧ i = 0 then ⟨(1 <<< 10) ||| 1⟩
          else if p = 1 ∧ i = 0 then ⟨(2 <<< 10) ||| 1⟩
          else if p = 2 ∧ i = 0 then ⟨(3 <<< 10) ||| 1⟩
          else ⟨0⟩⟩ 0 0 (fun _ => 0)
      = some (-1, [], fun _ => (0 : Int)) :=
  ⟨((sys_waitpid_cases [⟨5, true, 7⟩] 5 _ 0 0 (fun _ => 0)).2.2 0 ⟨5, true, 7⟩
      12288 (by decide) (by decide)).1,
   (sys_waitpid_cases [] 5 _ 0 0 (fun _ => 0)).1 (by decide)⟩

theorem sys_waitpid_null_ptr_panic_w :
    Sys.sys_waitpid [⟨5, true, 7⟩] (-1) ⟨fun _ _ => ⟨0⟩⟩ 0 0 (fun _ => 0) = none :=
  (sys_waitpid_null_ptr_panic [⟨5, true, 7⟩] (-1) ⟨fun _ _ => ⟨0⟩⟩ 0
      (fun _ => 0) 0 ⟨5, true, 7⟩ (by decide)).2 (by decide)

/-- C1: on the root directory `[("a", inode 1), ("b", inode 2)]` with
link counts `1 ↦ 1, 2 ↦ 2`, `unlink("a")` does swap-remove the entry
(the directory shrinks to one entry, now named "b"), but it decrements
the link count of inode 2 — the inode of the moved last entry — and
leaves inode 1's link count at 1, so the inode that "a" referred to is
neither decremented nor freed: `Inode::swap_remove` returns the inode
number of the entry read from the last slot instead of the removed
entry's. -/
theorem unlink_decrements_moved_inode_on_failing_input :
    (Vfs.unlink
        { dir := { size := 64,
                   data := fun i =>
                     if i = 0 then ⟨"a", 1⟩ else if i = 1 then ⟨"b", 2⟩ else ⟨"", 0⟩ },
          link_num := fun i => if i = 1 then 1 else if i = 2 then 2 else 0,
          freed_inodes := [] } "a").1 = true
    ∧ (Vfs.unlink
        { dir := { size := 64,
                   data := fun i =>
                     if i = 0 then ⟨"a", 1⟩ else if i = 1 then ⟨"b", 2⟩ else ⟨"", 0⟩ },
          link_num := fun i => if i = 1 then 1 else if i = 2 then 2 else 0,
          freed_inodes := [] } "a").2.dir.size = 32
    ∧ ((Vfs.unlink
        { dir := { size := 64,
                   data := fun i =>
                     if i = 0 then ⟨"a", 1⟩ else if i = 1 then ⟨"b", 2⟩ else ⟨"", 0⟩ },
          link_num := fun i => if i = 1 then 1 else if i = 2 then 2 else 0,
          freed_inodes := [] } "a").2.dir.data 0).name = "b"
    ∧ (Vfs.unlink
        { dir := { size := 64,
                   data := fun i =>
                     if i = 0 then ⟨"a", 1⟩ else if i = 1 then ⟨"b", 2⟩ else ⟨"", 0⟩ },
          link_num := fun i => if i = 1 then 1 else if i = 2 then 2 else 0,
          freed_inodes := [] } "a").2.link_num 1 = 1
    ∧ (Vfs.unlink
        { dir := { size := 64,
                   data := fun i =>
                     if i = 0 then ⟨"a", 1⟩ else if i = 1 then ⟨"b", 2⟩ else ⟨"", 0⟩ },
          link_num := fun i => if i = 1 then 1 else if i = 2 then 2 else 0,
          freed_inodes := [] } "a").2.link_num 2 = 1 := by
  decide

/-- C2 counterexample: for a parent whose fd table holds an open file at
fd 3, the forked child's fd table is not the parent's table — `fork`
builds a fresh `[Stdin, Stdout, Stdout]` table instead of cloning the
parent's entries. -/
theorem fork_fd_table_not_copied_cex :
    ¬ ((Task.sys_fork
          { pid := 3,
            fd_table := [some .stdin, some .stdout, some .stdout, some (.osInode 5)],
            trap_ctx := ⟨1, 2, 3, 4, 5, 6, 7⟩, priority := 16, pass := 0 } 7 55).1.fd_table
        = [some .stdin, some .stdout, some .stdout, some (.osInode 5)]) := by
  decide

/-- C2 amended: after `sys_fork` the child's fd table is the freshly
initialized `[Stdin, Stdout, Stdout]` (the parent's table is not
copied), the child's trap-context `x10` is 0, the parent receives the
child's pid as return value, and the child carries the new pid. -/
theorem fork_fresh_fd_table_and_child_returns_zero :
    ∀ (parent : Task.TCB) (new_pid ks_top : Nat),
      (Task.sys_fork parent new_pid ks_top).1.fd_table
          = [some .stdin, some .stdout, some .stdout]
      ∧ (Task.sys_fork parent new_pid ks_top).1.trap_ctx.x10 = 0
      ∧ (Task.sys_fork parent new_pid ks_top).2 = (new_pid : Int)
      ∧ (Task.sys_fork parent new_pid ks_top).1.pid = new_pid :=
  fun _ _ _ => ⟨rfl, rfl, rfl, rfl⟩

/-- C3 counterexample: with `a = BIG_STRIDE` and `b = 0` the code's
comparison says `a < b` (`a - b = BIG_STRIDE > BIG_STRIDE / 2`), but the
claimed modular formula `(b - a) mod 2^64 ≤ BIG_STRIDE / 2` is false
there (`(b - a) mod 2^64 = 2^64 - 2^20`). -/
theorem pass_order_modular_formula_cex :
    Sched.pass_cmp BIG_STRIDE 0 = .lt ∧ ¬ Sched.claim_mod_lt BIG_STRIDE 0 := by
  decide

/-- When both pass values are within `BIG_STRIDE / 2` of each other, the
code's comparison is `Greater` exactly on the natural order. -/
theorem pass_cmp_gt_iff (a b : Nat)
    (h1 : a ≤ b → b - a ≤ BIG_STRIDE / 2)
    (h2 : b ≤ a → a - b ≤ BIG_STRIDE / 2) :
    Sched.pass_cmp a b = .gt ↔ b < a := by
  unfold Sched.pass_cmp
  by_cases hab : a ≤ b
  · rw [if_pos hab, if_neg (by have := h1 hab; omega)]
    constructor
    · intro h
      exact Ordering.noConfusion h
    · intro h
      exact absurd hab (by omega)
  · rw [if_neg hab, if_neg (by have := h2 (by omega); omega)]
    constructor
    · intro _
      omega
    · intro _
      rfl

theorem sched_fold_mem :
    ∀ (l : List (Nat × Sched.TaskEntry)) (acc : Nat × Sched.TaskEntry),
      l.foldl Sched.min_step acc ∈ acc :: l := by
  intro l
  induction l with
  | nil => intro acc; exact List.mem_cons_self ..
  | cons h t ih =>
    intro acc
    rw [List.foldl_cons]
    rcases List.mem_cons.mp (ih (Sched.min_step acc h)) with he | hmem
    · rw [he]
      unfold Sched.min_step
      split
      · exact List.mem_cons_of_mem _ (List.mem_cons_self ..)
      · exact List.mem_cons_self ..
    · exact List.mem_cons_of_mem _ (List.mem_cons_of_mem _ hmem)

theorem sched_fold_min :
    ∀ (l : List (Nat × Sched.TaskEntry)) (acc : Nat × Sched.TaskEntry),
      (∀ x ∈ acc :: l, ∀ y ∈ acc :: l,
          x.2.pass ≤ y.2.pass → y.2.pass - x.2.pass ≤ BIG_STRIDE / 2) →
      ∀ y ∈ acc :: l, (l.foldl Sched.min_step acc).2.pass ≤ y.2.pass := by
  intro l
  induction l with
  | nil =>
    intro acc _ y hy
    rcases List.mem_cons.mp hy with he | h2
    · rw [he]
      exact Nat.le_refl _
    · exact absurd h2 (List.not_mem_nil y)
  | cons h t ih =>
    intro acc W y hy
    rw [List.foldl_cons]
    have hsub : Sched.min_step acc h = acc ∨ Sched.min_step acc h = h := by
      unfold Sched.min_step
      split
      · exact Or.inr rfl
      · exact Or.inl rfl
    have hmemsub : ∀ x ∈ Sched.min_step acc h :: t, x ∈ acc :: h :: t := by
      intro x hx
      rcases List.mem_cons.mp hx with he | hx2
      · rcases hsub with h1 | h1
        · rw [h1] at he
          exact he ▸ List.mem_cons_self ..
        · rw [h1] at he
          exact he ▸ List.mem_cons_of_mem _ (List.mem_cons_self ..)
      · exact List.mem_cons_of_mem _ (List.mem_cons_of_mem _ hx2)
    have W2 : ∀ x ∈ Sched.min_step acc h :: t, ∀ z ∈ Sched.min_step acc h :: t,
        x.2.pass ≤ z.2.pass → z.2.pass - x.2.pass ≤ BIG_STRIDE / 2 :=
      fun x hx z hz => W x (hmemsub x hx) z (hmemsub z hz)
    have hres := ih (Sched.min_step acc h) W2
    have hacc_mem : acc ∈ acc :: h :: t := List.mem_cons_self ..
    have hh_mem : h ∈ acc :: h :: t :=
      List.mem_cons_of_mem _ (List.mem_cons_self ..)
    have hgap1 := W acc hacc_mem h hh_mem
    have hgap2 := W h hh_mem acc hacc_mem
    have hboth : (Sched.min_step acc h).2.pass ≤ acc.2.pass
        ∧ (Sched.min_step acc h).2.pass ≤ h.2.pass := by
      unfold Sched.min_step
      split
      · rename_i hgt
        have hlt : h.2.pass < acc.2.pass :=
          (pass_cmp_gt_iff _ _ hgap1 hgap2).mp hgt
        exact ⟨Nat.le_of_lt hlt, Nat.le_refl _⟩
      · rename_i hngt
        have hnlt : ¬ h.2.pass < acc.2.pass := fun hlt =>
          hngt ((pass_cmp_gt_iff _ _ hgap1 hgap2).mpr hlt)
        exact ⟨Nat.le_refl _, by omega⟩
    have hhead := hres (Sched.min_step acc h) (List.mem_cons_self ..)
    rcases List.mem_cons.mp hy with he | hy2
    · rw [he]
      exact Nat.le_trans hhead hboth.1
    rcases List.mem_cons.mp hy2 with he | hy3
    · rw [he]
      exact Nat.le_trans hhead hboth.2
    · exact hres y (List.mem_cons_of_mem _ hy3)

/-- C3 amended: `a` compares less than `b` iff either `a ≤ b` and
`b - a ≤ BIG_STRIDE / 2`, or `a > b` and `a - b > BIG_STRIDE / 2` (the
claimed formula `(b - a) mod 2^64 ≤ BIG_STRIDE / 2` fails whenever `a`
exceeds `b` by more than `BIG_STRIDE / 2`); `fetch_task` removes the
task selected by `min_by_key`'s left-to-right minimum fold under this
comparison — a task of genuinely minimal pass whenever all pass values
on the queue lie within `BIG_STRIDE / 2` of each other — and increments
that task's pass by `BIG_STRIDE / priority` (mod 2^64). -/
theorem pass_order_and_fetch_task_amended :
    (∀ a b : Nat, Sched.pass_cmp a b = .lt ↔
        ((a ≤ b ∧ b - a ≤ BIG_STRIDE / 2) ∨ (b < a ∧ BIG_STRIDE / 2 < a - b)))
    ∧ (∀ (q : List Sched.TaskEntry) (i : Nat) (t : Sched.TaskEntry),
        Sched.select_min q = some (i, t) →
        Sched.fetch_task q =
            some ({ t with pass := (t.pass + BIG_STRIDE / t.priority) % USIZE_MOD },
                  vec_swap_remove q i)
          ∧ q.get? i = some t
          ∧ ((∀ x ∈ q, ∀ y ∈ q, x.pass ≤ y.pass → y.pass - x.pass ≤ BIG_STRIDE / 2) →
              ∀ u ∈ q, t.pass ≤ u.pass)) := by
  constructor
  · intro a b
    unfold Sched.pass_cmp
    by_cases hab : a ≤ b
    · rw [if_pos hab]
      by_cases hgap : b - a > BIG_STRIDE / 2
      · rw [if_pos hgap]
        constructor
        · intro h
          exact Ordering.noConfusion h
        · rintro (⟨h1, h2⟩ | ⟨h1, h2⟩)
          · exact absurd h2 (by omega)
          · exact absurd hab (by omega)
      · rw [if_neg hgap]
        exact ⟨fun _ => Or.inl ⟨hab, by omega⟩, fun _ => rfl⟩
    · rw [if_neg hab]
      by_cases hgap : a - b > BIG_STRIDE / 2
      · rw [if_pos hgap]
        exact ⟨fun _ => Or.inr ⟨by omega, hgap⟩, fun _ => rfl⟩
      · rw [if_neg hgap]
        constructor
        · intro h
          exact Ordering.noConfusion h
        · rintro (⟨h1, h2⟩ | ⟨h1, h2⟩)
          · exact absurd h1 hab
          · exact absurd h2 (by omega)
  · intro q i t hsel
    have heq : Sched.fetch_task q =
        some ({ t with pass := (t.pass + BIG_STRIDE / t.priority) % USIZE_MOD },
              vec_swap_remove q i) := by
      simp only [Sched.fetch_task, hsel]
    rcases he : q.enum with _ | ⟨p, rest⟩
    · rw [Sched.select_min, he] at hsel
      exact Option.noConfusion hsel
    · have hfold : rest.foldl Sched.min_step p = (i, t) := by
        rw [Sched.select_min, he] at hsel
        exact Option.some.inj hsel
      have hmemfold : (i, t) ∈ q.enum := by
        rw [he, ← hfold]
        exact sched_fold_mem rest p
      have hget : q.get? i = some t := List.mk_mem_enum_iff_get?.mp hmemfold
      refine ⟨heq, hget, fun W u hu => ?_⟩
      have W2 : ∀ x ∈ p :: rest, ∀ z ∈ p :: rest,
          x.2.pass ≤ z.2.pass → z.2.pass - x.2.pass ≤ BIG_STRIDE / 2 := by
        intro x hx z hz
        have hx2 : x.2 ∈ q :=
          List.get?_mem (List.mk_mem_enum_iff_get?.mp (he ▸ hx : x ∈ q.enum))
        have hz2 : z.2 ∈ q :=
          List.get?_mem (List.mk_mem_enum_iff_get?.mp (he ▸ hz : z ∈ q.enum))
        exact W x.2 hx2 z.2 hz2
      obtain ⟨pr, hpr, hsnd⟩ := List.mem_map.mp
        (by rw [List.enum_map_snd]; exact hu :
          u ∈ q.enum.map Prod.snd)
      have hpr2 : pr ∈ p :: rest := he ▸ hpr
      have := sched_fold_min rest p W2 pr hpr2
      rw [hfold] at this
      rw [← hsnd]
      exact this

theorem pass_order_and_fetch_task_amended_w :
    Sched.pass_cmp 3 5 = .lt
    ∧ Sched.fetch_task [⟨0, 5, 2⟩, ⟨1, 3, 4⟩]
        = some (⟨1, 262147, 4⟩, [⟨0, 5, 2⟩]) := by
  constructor
  · exact (pass_order_and_fetch_task_amended.1 3 5).mpr (Or.inl (by decide))
  · have h := (pass_order_and_fetch_task_amended.2
      [⟨0, 5, 2⟩, ⟨1, 3, 4⟩] 1 ⟨1, 3, 4⟩ (by decide)).1
    exact h.trans (by decide)

/-- C5 counterexample: `sys_mmap(1, 0, 0)` has an unaligned start and a
`port` whose low three bits are all zero, yet it returns 0 (not −1)
because the `len == 0` short-circuit fires before any validation. -/
theorem sys_mmap_len_zero_cex :
    Mset.sys_mmap ⟨[]⟩ 1 0 0 = (0, ⟨[]⟩) ∧ ((0 : Int) ≠ -1) := by
  decide

/-- C5 amended: `sys_mmap(start, len, port)` with `len = 0` returns 0
immediately with no effect, regardless of `start` and `port`; for
`len ≠ 0` it returns −1 when `start` is not page-aligned, when `port`
has a bit set outside the low three, when `port`'s low three bits are
all zero, or when the requested page range intersects an existing area;
otherwise it appends a Framed area covering the range whose permission
bits carry `U` plus `R`/`W`/`X` exactly as selected by `port`'s bits
0/1/2, and returns 0. -/
theorem sys_mmap_amended :
    (∀ (ms : Mset.MemorySetM) (start port : Nat),
        Mset.sys_mmap ms start 0 port = (0, ms))
    ∧ (∀ (ms : Mset.MemorySetM) (start len port : Nat), len ≠ 0 →
        start % PAGE_SIZE ≠ 0 → Mset.sys_mmap ms start len port = (-1, ms))
    ∧ (∀ (ms : Mset.MemorySetM) (start len port : Nat), len ≠ 0 →
        port &&& (USIZE_MOD - 8) ≠ 0 →
        Mset.sys_mmap ms start len port = (-1, ms))
    ∧ (∀ (ms : Mset.MemorySetM) (start len port : Nat), len ≠ 0 →
        port &&& 7 = 0 → Mset.sys_mmap ms start len port = (-1, ms))
    ∧ (∀ (ms : Mset.MemorySetM) (start len port : Nat), len ≠ 0 →
        start % PAGE_SIZE = 0 → port < 8 → port ≠ 0 →
        ((∃ a ∈ ms.areas, Mset.range_is_empty (Mset.intersection a
            (Mset.floor_vpn start, Mset.ceil_vpn (start + len))) = false) →
          Mset.sys_mmap ms start len port = (-1, ms))
        ∧ ((∀ a ∈ ms.areas, Mset.range_is_empty (Mset.intersection a
            (Mset.floor_vpn start, Mset.ceil_vpn (start + len))) = true) →
          Mset.sys_mmap ms start len port =
            (0, ⟨ms.areas ++ [⟨Mset.floor_vpn start, Mset.ceil_vpn (start + len),
                  .framed, Mset.perm_of_port port⟩]⟩)
          ∧ Mset.perm_of_port port &&& 16 ≠ 0
          ∧ (Mset.perm_of_port port &&& 2 ≠ 0 ↔ port &&& 1 ≠ 0)
          ∧ (Mset.perm_of_port port &&& 4 ≠ 0 ↔ port &&& 2 ≠ 0)
          ∧ (Mset.perm_of_port port &&& 8 ≠ 0 ↔ port &&& 4 ≠ 0))) := by
  refine ⟨fun ms start port => by simp [Mset.sys_mmap],
          fun ms start len port hlen h => ?_,
          fun ms start len port hlen h => ?_,
          fun ms start len port hlen h => ?_,
          fun ms start len port hlen hal hlt hnz => ?_⟩
  · rw [Mset.sys_mmap, if_neg hlen, if_pos (Or.inl h)]
  · rw [Mset.sys_mmap, if_neg hlen, if_pos (Or.inr (Or.inl h))]
  · rw [Mset.sys_mmap, if_neg hlen, if_pos (Or.inr (Or.inr h))]
  · have hmask : port &&& (USIZE_MOD - 8) = 0 := by
      interval_cases port <;> simp_all <;> decide
    have h7 : ¬ port &&& 7 = 0 := by
      interval_cases port <;> simp_all <;> decide
    have hcond : ¬ (start % PAGE_SIZE ≠ 0 ∨ port &&& (USIZE_MOD - 8) ≠ 0
        ∨ port &&& 7 = 0) := by
      push_neg
      exact ⟨hal, hmask, h7⟩
    constructor
    · rintro ⟨a, ha, hne⟩
      have hany : ms.areas.any (fun a => ! Mset.range_is_empty (Mset.intersection a
          (Mset.floor_vpn start, Mset.ceil_vpn (start + len)))) = true :=
        List.any_eq_true.mpr ⟨a, ha, by rw [hne]; rfl⟩
      rw [Mset.sys_mmap, if_neg hlen, if_neg hcond]
      simp only [Mset.map_range, hany, if_true]
      rfl
    · intro hall
      have hany : ms.areas.any (fun a => ! Mset.range_is_empty (Mset.intersection a
          (Mset.floor_vpn start, Mset.ceil_vpn (start + len)))) = false :=
        List.any_eq_false.mpr (by
          intro a ha
          rw [hall a ha]
          simp)
      refine ⟨?_, ?_, ?_, ?_, ?_⟩
      · rw [Mset.sys_mmap, if_neg hlen, if_neg hcond]
        simp only [Mset.map_range, hany, Bool.false_eq_true, if_false]
        rfl
      · interval_cases port <;> simp_all <;> decide
      · interval_cases port <;> simp_all <;> decide
      · interval_cases port <;> simp_all <;> decide
      · interval_cases port <;> simp_all <;> decide

theorem sys_mmap_amended_w :
    Mset.sys_mmap ⟨[]⟩ 4096 0 0 = (0, ⟨[]⟩)
    ∧ Mset.sys_mmap ⟨[]⟩ 4096 1 3 = (0, ⟨[⟨1, 2, .framed, 22⟩]⟩) := by
  constructor
  · exact sys_mmap_amended.1 ⟨[]⟩ 4096 0
  · have h := ((sys_mmap_amended.2.2.2.2 ⟨[]⟩ 4096 1 3 (by decide) (by decide)
      (by decide) (by decide)).2 (by intro a ha; cases ha)).1
    exact h.trans (by decide)

/-- C6 counterexample: with the single area covering page range `[1, 2)`,
`sys_munmap(0, 8192)` requests pages `[0, 2)`, fully contains the area —
which is therefore unmapped — and then fails the count check: it returns
−1 *and* the address space changed (the area list went from one area to
empty). -/
theorem sys_munmap_error_effect_cex :
    Mset.sys_munmap ⟨[⟨1, 2, .framed, 22⟩]⟩ 0 8192 = (-1, ⟨[]⟩)
      ∧ (Mset.MemorySetM.mk [] ≠ ⟨[⟨1, 2, .framed, 22⟩]⟩) := by
  decide

theorem frame_inv_step
    (s : FrameAlloc.StackFrameAllocator) (live : List Nat)
    (op : FrameAlloc.FrameOp)
    (s1 : FrameAlloc.StackFrameAllocator) (live1 : List Nat)
    (hinv : FrameAlloc.Inv s live)
    (hstep : FrameAlloc.step (s, live) op = some (s1, live1)) :
    FrameAlloc.Inv s1 live1 := by
  obtain ⟨hlive, hrec, hnodup, hdisj, hlnodup⟩ := hinv
  cases op with
  | alloc =>
    rcases hr : s.recycled with _ | ⟨p, rest⟩
    · by_cases hc : s.current = s.endp
      · simp only [FrameAlloc.step, FrameAlloc.alloc, hr, hc, if_true] at hstep
        cases hstep
        exact ⟨hlive, hrec, hnodup, hdisj, hlnodup⟩
      · simp only [FrameAlloc.step, FrameAlloc.alloc, hr, hc, if_false] at hstep
        cases hstep
        refine ⟨?_, ?_, ?_, ?_, ?_⟩
        · intro q hq
          show q < s.current + 1
          rcases List.mem_cons.mp hq with he | hq2
          · omega
          · have := hlive q hq2; omega
        · intro q hq
          exact absurd hq (List.not_mem_nil q)
        · exact List.nodup_nil
        · intro q hq
          exact absurd hq (List.not_mem_nil q)
        · refine List.Nodup.cons ?_ hlnodup
          intro hmem
          have := hlive _ hmem
          omega
    · simp only [FrameAlloc.step, FrameAlloc.alloc, hr] at hstep
      cases hstep
      have hp : p ∈ s.recycled := by rw [hr]; exact List.mem_cons_self ..
      refine ⟨?_, ?_, ?_, ?_, ?_⟩
      · intro q hq
        rcases List.mem_cons.mp hq with he | hq2
        · subst he; exact hrec _ hp
        · exact hlive q hq2
      · intro q hq
        exact hrec q (by rw [hr]; exact List.mem_cons_of_mem _ hq)
      · have := hnodup
        rw [hr] at this
        exact this.of_cons
      · intro q hq
        have hq' : q ∈ s.recycled := by rw [hr]; exact List.mem_cons_of_mem _ hq
        have hqnl : q ∉ live := hdisj q hq'
        have hqp : q ≠ p := by
          have := hnodup
          rw [hr] at this
          intro he
          exact this.not_mem (he ▸ hq)
        intro hmem
        rcases List.mem_cons.mp hmem with he | h2
        · exact hqp he
        · exact hqnl h2
      · exact List.Nodup.cons (hdisj p hp) hlnodup
  | dealloc p =>
    rcases hd : FrameAlloc.dealloc s p with _ | s2
    · simp only [FrameAlloc.step, hd] at hstep
      exact Option.noConfusion hstep
    · simp only [FrameAlloc.step, hd] at hstep
      cases hstep
      unfold FrameAlloc.dealloc at hd
      by_cases hc : s.current ≤ p ∨ p ∈ s.recycled
      · rw [if_pos hc] at hd
        cases hd
      · rw [if_neg hc] at hd
        cases hd
        push_neg at hc
        obtain ⟨hplt, hpnotin⟩ := hc
        refine ⟨?_, ?_, ?_, ?_, ?_⟩
        · intro q hq
          exact hlive q (List.mem_of_mem_erase hq)
        · intro q hq
          show q < s.current
          rcases List.mem_cons.mp hq with he | hq2
          · omega
          · exact hrec q hq2
        · exact List.Nodup.cons hpnotin hnodup
        · intro q hq
          rcases List.mem_cons.mp hq with he | hq2
          · subst he
            exact fun hm => ((hlnodup.mem_erase_iff).mp hm).1 rfl
          · exact fun hm => hdisj q hq2 (List.mem_of_mem_erase hm)
        · exact hlnodup.erase p

theorem frame_inv_run :
    ∀ (ops : List FrameAlloc.FrameOp)
      (st : FrameAlloc.StackFrameAllocator × List Nat)
      (s : FrameAlloc.StackFrameAllocator) (live : List Nat),
      FrameAlloc.Inv st.1 st.2 →
      FrameAlloc.run st ops = some (s, live) →
      FrameAlloc.Inv s live := by
  intro ops
  induction ops with
  | nil =>
    intro st s live hinv hrun
    simp only [FrameAlloc.run] at hrun
    cases hrun
    exact hinv
  | cons op rest ih =>
    intro st s live hinv hrun
    simp only [FrameAlloc.run] at hrun
    rcases hs : FrameAlloc.step st op with _ | st1
    · rw [hs] at hrun
      cases hrun
    · rw [hs] at hrun
      exact ih st1 s live (frame_inv_step st.1 st.2 op st1.1 st1.2 hinv hs) hrun

/-- C7: `alloc` pops the recycled stack when non-empty, otherwise hands
out the cursor and bumps it, and returns `None` exactly when the cursor
has reached the end; `dealloc(ppn)` panics precisely unless
`ppn < current` and `ppn` is not already recycled; and along any
sequence of allocator calls starting from `init l r`, a frame returned
by `alloc` is never a frame that an earlier `alloc` returned and that
has not been `dealloc`ed since (`live` is exactly that set of frames,
maintained by `run`). -/
theorem frame_allocator_correct :
    (∀ (s : FrameAlloc.StackFrameAllocator) (p : Nat) (rest : List Nat),
        s.recycled = p :: rest →
        FrameAlloc.alloc s = (some p, { s with recycled := rest }))
    ∧ (∀ s : FrameAlloc.StackFrameAllocator, s.recycled = [] →
        s.current ≠ s.endp →
        FrameAlloc.alloc s = (some s.current, { s with current := s.current + 1 }))
    ∧ (∀ s : FrameAlloc.StackFrameAllocator, s.recycled = [] →
        s.current = s.endp → FrameAlloc.alloc s = (none, s))
    ∧ (∀ (s : FrameAlloc.StackFrameAllocator) (p : Nat),
        FrameAlloc.dealloc s p = none ↔ (s.current ≤ p ∨ p ∈ s.recycled))
    ∧ (∀ (l r : Nat) (ops : List FrameAlloc.FrameOp)
        (s s2 : FrameAlloc.StackFrameAllocator) (live : List Nat) (p : Nat),
        FrameAlloc.run (FrameAlloc.init l r, []) ops = some (s, live) →
        FrameAlloc.alloc s = (some p, s2) → p ∉ live) := by
  refine ⟨fun s p rest h => ?_, fun s h hne => ?_, fun s h he => ?_,
          fun s p => ?_, fun l r ops s s2 live p hrun halloc => ?_⟩
  · simp only [FrameAlloc.alloc, h]
  · simp only [FrameAlloc.alloc, h, hne, if_false]
  · simp only [FrameAlloc.alloc, h, he, if_true]
  · unfold FrameAlloc.dealloc
    by_cases hc : s.current ≤ p ∨ p ∈ s.recycled
    · simp [hc]
    · simp [hc]
  · have hinv0 : FrameAlloc.Inv (FrameAlloc.init l r) [] := by
      refine ⟨?_, ?_, ?_, ?_, ?_⟩ <;> simp [FrameAlloc.init]
    have hinv := frame_inv_run ops (FrameAlloc.init l r, []) s live hinv0 hrun
    obtain ⟨hlive, hrec, _, hdisj, _⟩ := hinv
    rcases hr : s.recycled with _ | ⟨q, rest⟩
    · by_cases hc : s.current = s.endp
      · simp only [FrameAlloc.alloc, hr, hc, if_true] at halloc
        cases halloc
      · simp only [FrameAlloc.alloc, hr, hc, if_false] at halloc
        have h2 : some s.current = some p := congrArg Prod.fst halloc
        have hp : p = s.current := (Option.some.inj h2).symm
        subst hp
        intro hmem
        have := hlive _ hmem
        omega
    · simp only [FrameAlloc.alloc, hr] at halloc
      have h2 : some q = some p := congrArg Prod.fst halloc
      have hp : p = q := (Option.some.inj h2).symm
      subst hp
      exact hdisj p (by rw [hr]; exact List.mem_cons_self ..)

theorem frame_allocator_correct_w :
    FrameAlloc.run (FrameAlloc.init 0 2, []) [FrameAlloc.FrameOp.alloc]
        = some (⟨1, 2, []⟩, [0])
    ∧ (1 : Nat) ∉ [0] :=
  ⟨by decide,
   frame_allocator_correct.2.2.2.2 0 2 [FrameAlloc.FrameOp.alloc]
     ⟨1, 2, []⟩ ⟨2, 2, []⟩ [0] 1 (by decide) (by decide)⟩

theorem covered_iff (r : Nat × Nat) (a : Mset.MapAreaM) :
    Mset.covered r a = true ↔ r.1 ≤ a.vstart ∧ a.vstop ≤ r.2 := by
  unfold Mset.covered Mset.intersection
  rw [beq_iff_eq, Prod.mk.injEq]
  constructor
  · rintro ⟨h1, h2⟩
    exact ⟨by omega, by omega⟩
  · rintro ⟨h1, h2⟩
    exact ⟨by omega, by omega⟩

theorem area_union_mem :
    ∀ (L : List Mset.MapAreaM) (v : Nat),
      (v ∈ L.foldr (fun a acc => Finset.Ico a.vstart a.vstop ∪ acc) ∅ ↔
        ∃ a ∈ L, a.vstart ≤ v ∧ v < a.vstop) := by
  intro L
  induction L with
  | nil => intro v; simp
  | cons h t ih =>
    intro v
    simp only [List.foldr_cons, Finset.mem_union, Finset.mem_Ico, ih,
      List.mem_cons]
    constructor
    · rintro (hv | ⟨a, ha, hb⟩)
      · exact ⟨h, Or.inl rfl, hv⟩
      · exact ⟨a, Or.inr ha, hb⟩
    · rintro ⟨a, ha | ha, hb⟩
      · exact Or.inl (ha ▸ hb)
      · exact Or.inr ⟨a, ha, hb⟩

theorem area_union_card :
    ∀ (L : List Mset.MapAreaM),
      L.Pairwise (fun a b => a.vstop ≤ b.vstart ∨ b.vstop ≤ a.vstart) →
      (L.map (fun a => a.vstop - a.vstart)).sum
        = (L.foldr (fun a acc => Finset.Ico a.vstart a.vstop ∪ acc) ∅).card := by
  intro L
  induction L with
  | nil => intro _; simp
  | cons h t ih =>
    intro hp
    have hp2 := List.pairwise_cons.mp hp
    have hdisj : Disjoint (Finset.Ico h.vstart h.vstop)
        (t.foldr (fun a acc => Finset.Ico a.vstart a.vstop ∪ acc) ∅) := by
      rw [Finset.disjoint_left]
      intro v hv hv2
      obtain ⟨a, ha, hb⟩ := (area_union_mem t v).mp hv2
      rcases hp2.1 a ha with hd | hd
      · rw [Finset.mem_Ico] at hv
        omega
      · rw [Finset.mem_Ico] at hv
        omega
    rw [List.map_cons, List.sum_cons, List.foldr_cons,
      Finset.card_union_of_disjoint hdisj, Nat.card_Ico, ih hp2.2]

/-- C6 amended: `sys_munmap(start, len)` returns −1 with no effect when
`start` is not page-aligned; when it is aligned, the areas wholly
contained in the requested page range are unmapped in every case — even
when the call then returns −1 because those areas do not add up to the
whole range — and the call returns 0 exactly when the contained areas'
page counts sum to the range's size, which (for pairwise-disjoint
non-empty areas) happens exactly when every page of the range is
covered by a wholly contained area. -/
theorem sys_munmap_amended :
    (∀ (ms : Mset.MemorySetM) (start len : Nat), start % PAGE_SIZE ≠ 0 →
        Mset.sys_munmap ms start len = (-1, ms))
    ∧ (∀ (ms : Mset.MemorySetM) (start len : Nat), start % PAGE_SIZE = 0 →
        (Mset.sys_munmap ms start len).2
            = ⟨ms.areas.filter (fun a => ! Mset.covered
                (Mset.floor_vpn start, Mset.ceil_vpn (start + len)) a)⟩
        ∧ ((Mset.sys_munmap ms start len).1 = 0 ↔
            ((ms.areas.filter (fun a => Mset.covered
                (Mset.floor_vpn start, Mset.ceil_vpn (start + len)) a)).map
              (fun a => a.vstop - a.vstart)).sum
              = Mset.ceil_vpn (start + len) - Mset.floor_vpn start))
    ∧ (∀ (ms : Mset.MemorySetM) (start len : Nat), start % PAGE_SIZE = 0 →
        (∀ a ∈ ms.areas, a.vstart < a.vstop) →
        ms.areas.Pairwise (fun a b => a.vstop ≤ b.vstart ∨ b.vstop ≤ a.vstart) →
        ((Mset.sys_munmap ms start len).1 = 0 ↔
          ∀ v, Mset.floor_vpn start ≤ v → v < Mset.ceil_vpn (start + len) →
            ∃ a ∈ ms.areas, Mset.covered
                (Mset.floor_vpn start, Mset.ceil_vpn (start + len)) a = true
              ∧ a.vstart ≤ v ∧ v < a.vstop)) := by
  have key : ∀ (ms : Mset.MemorySetM) (start len : Nat), start % PAGE_SIZE = 0 →
      (Mset.sys_munmap ms start len).2
          = ⟨ms.areas.filter (fun a => ! Mset.covered
              (Mset.floor_vpn start, Mset.ceil_vpn (start + len)) a)⟩
      ∧ ((Mset.sys_munmap ms start len).1 = 0 ↔
          ((ms.areas.filter (fun a => Mset.covered
              (Mset.floor_vpn start, Mset.ceil_vpn (start + len)) a)).map
            (fun a => a.vstop - a.vstart)).sum
            = Mset.ceil_vpn (start + len) - Mset.floor_vpn start) := by
    intro ms start len hal
    rw [Mset.sys_munmap, if_neg (by omega : ¬ start % PAGE_SIZE ≠ 0)]
    simp only [Mset.unmap_range]
    by_cases hc : ((ms.areas.filter (fun a => Mset.covered
        (Mset.floor_vpn start, Mset.ceil_vpn (start + len)) a)).map
          (fun a => a.vstop - a.vstart)).sum
        = Mset.ceil_vpn (start + len) - Mset.floor_vpn start
    · rw [if_pos (by rw [beq_iff_eq]; exact hc)]
      exact ⟨rfl, by simp [hc]⟩
    · rw [if_neg (by rw [beq_iff_eq]; exact hc)]
      refine ⟨rfl, ?_⟩
      constructor
      · intro h
        simp at h
      · intro h
        exact absurd h hc
  refine ⟨fun ms start len h => by rw [Mset.sys_munmap, if_pos h],
          key, fun ms start len hal hne hdisj => ?_⟩
  rw [(key ms start len hal).2]
  have hpair : (ms.areas.filter (fun a => Mset.covered
      (Mset.floor_vpn start, Mset.ceil_vpn (start + len)) a)).Pairwise
      (fun a b => a.vstop ≤ b.vstart ∨ b.vstop ≤ a.vstart) :=
    hdisj.filter _
  have hcard := area_union_card _ hpair
  have hsub : (ms.areas.filter (fun a => Mset.covered
        (Mset.floor_vpn start, Mset.ceil_vpn (start + len)) a)).foldr
        (fun a acc => Finset.Ico a.vstart a.vstop ∪ acc) ∅
      ⊆ Finset.Ico (Mset.floor_vpn start) (Mset.ceil_vpn (start + len)) := by
    intro v hv
    obtain ⟨a, ha, hb⟩ := (area_union_mem _ v).mp hv
    obtain ⟨ha1, ha2⟩ := List.mem_filter.mp ha
    have := (covered_iff _ a).mp ha2
    rw [Finset.mem_Ico]
    omega
  constructor
  · intro hsum v hv1 hv2
    have hcards : (Finset.Ico (Mset.floor_vpn start)
        (Mset.ceil_vpn (start + len))).card
        ≤ ((ms.areas.filter (fun a => Mset.covered
            (Mset.floor_vpn start, Mset.ceil_vpn (start + len)) a)).foldr
          (fun a acc => Finset.Ico a.vstart a.vstop ∪ acc) ∅).card := by
      rw [← hcard, hsum, Nat.card_Ico]
    have hequ := Finset.eq_of_subset_of_card_le hsub hcards
    have hvmem : v ∈ (ms.areas.filter (fun a => Mset.covered
        (Mset.floor_vpn start, Mset.ceil_vpn (start + len)) a)).foldr
        (fun a acc => Finset.Ico a.vstart a.vstop ∪ acc) ∅ := by
      rw [hequ, Finset.mem_Ico]
      exact ⟨hv1, hv2⟩
    obtain ⟨a, ha, hb⟩ := (area_union_mem _ v).mp hvmem
    obtain ⟨ha1, ha2⟩ := List.mem_filter.mp ha
    exact ⟨a, ha1, ha2, hb⟩
  · intro hcov
    have hsup : Finset.Ico (Mset.floor_vpn start) (Mset.ceil_vpn (start + len))
        ⊆ (ms.areas.filter (fun a => Mset.covered
            (Mset.floor_vpn start, Mset.ceil_vpn (start + len)) a)).foldr
          (fun a acc => Finset.Ico a.vstart a.vstop ∪ acc) ∅ := by
      intro v hv
      rw [Finset.mem_Ico] at hv
      obtain ⟨a, ha, hac, hb⟩ := hcov v hv.1 hv.2
      exact (area_union_mem _ v).mpr
        ⟨a, List.mem_filter.mpr ⟨ha, hac⟩, hb⟩
    have hequ := Finset.Subset.antisymm hsub hsup
    rw [hcard, hequ, Nat.card_Ico]

theorem sys_munmap_amended_w :
    Mset.sys_munmap ⟨[⟨1, 2, .framed, 22⟩]⟩ 4096 4096 = (0, ⟨[]⟩)
    ∧ Mset.sys_munmap ⟨[]⟩ 1 4096 = (-1, ⟨[]⟩) := by
  constructor
  · have h1 := ((sys_munmap_amended.2.1 ⟨[⟨1, 2, .framed, 22⟩]⟩ 4096 4096
      (by decide)).2).mpr (by decide)
    have h2 := (sys_munmap_amended.2.1 ⟨[⟨1, 2, .framed, 22⟩]⟩ 4096 4096
      (by decide)).1
    have h2b : (Mset.sys_munmap ⟨[⟨1, 2, .framed, 22⟩]⟩ 4096 4096).2
        = (⟨[]⟩ : Mset.MemorySetM) := h2.trans (by decide)
    calc Mset.sys_munmap ⟨[⟨1, 2, .framed, 22⟩]⟩ 4096 4096
        = ((Mset.sys_munmap ⟨[⟨1, 2, .framed, 22⟩]⟩ 4096 4096).1,
           (Mset.sys_munmap ⟨[⟨1, 2, .framed, 22⟩]⟩ 4096 4096).2) := rfl
      _ = (0, (⟨[]⟩ : Mset.MemorySetM)) := by rw [h1, h2b]
  · exact sys_munmap_amended.1 ⟨[]⟩ 1 4096 (by decide)

/-- C8 counterexample: a SupervisorTimer interrupt does not panic the
kernel — `trap_handler` arms the next tick and suspends the current
task — so "any other cause panics" fails for the timer cause. -/
theorem trap_handler_timer_cex :
    Trap.trap_handler ⟨0, 0, 0, 0, 0, 0, 0⟩ (fun _ _ c => (0, c)) .supervisorTimer
        = .timerSuspend
      ∧ (Trap.TrapOutcome.timerSuspend ≠ .kernelPanic) :=
  ⟨rfl, by decide⟩

/-- C8 amended: for every trap taken from user mode, a UserEnvCall
advances `sepc` by 4, dispatches `syscall(x17, [x10..x13])` and writes
the return value into `x10` of the possibly replaced trap context; a
StoreFault, StorePageFault or LoadPageFault terminates the task with
exit code −2; an IllegalInstruction terminates it with −3; a
SupervisorTimer interrupt arms the next tick and suspends the current
task; and every other cause panics the kernel. -/
theorem trap_handler_amended :
    ∀ (ctx : Task.TrapCtx)
      (d : Nat → Nat × Nat × Nat × Nat → Task.TrapCtx → Int × Task.TrapCtx),
      (Trap.trap_handler ctx d .userEnvCall =
        .toUser { (d (ctx.x17) (ctx.x10, ctx.x11, ctx.x12, ctx.x13)
                    { ctx with sepc := ctx.sepc + 4 }).2 with
                  x10 := usizeOfInt (d (ctx.x17) (ctx.x10, ctx.x11, ctx.x12, ctx.x13)
                    { ctx with sepc := ctx.sepc + 4 }).1 })
      ∧ Trap.trap_handler ctx d .storeFault = .exitTask (-2)
      ∧ Trap.trap_handler ctx d .storePageFault = .exitTask (-2)
      ∧ Trap.trap_handler ctx d .loadPageFault = .exitTask (-2)
      ∧ Trap.trap_handler ctx d .illegalInstruction = .exitTask (-3)
      ∧ Trap.trap_handler ctx d .supervisorTimer = .timerSuspend
      ∧ Trap.trap_handler ctx d .instructionMisaligned = .kernelPanic
      ∧ Trap.trap_handler ctx d .instructionFault = .kernelPanic
      ∧ Trap.trap_handler ctx d .breakpoint = .kernelPanic
      ∧ Trap.trap_handler ctx d .loadFault = .kernelPanic
      ∧ Trap.trap_handler ctx d .loadMisaligned = .kernelPanic
      ∧ Trap.trap_handler ctx d .storeMisaligned = .kernelPanic
      ∧ Trap.trap_handler ctx d .instructionPageFault = .kernelPanic
      ∧ Trap.trap_handler ctx d .supervisorSoft = .kernelPanic
      ∧ Trap.trap_handler ctx d .supervisorExternal = .kernelPanic :=
  fun _ _ =>
    ⟨rfl, rfl, rfl, rfl, rfl, rfl, rfl, rfl, rfl, rfl, rfl, rfl, rfl, rfl, rfl⟩

end OsModel
